import Mathlib

open scoped Real

/-! Shallow embedding of the mekaneck virtual_brain engine (crates
vb-core, vb-operators, vb-engine): ternary addressing, partition
coordinates, S-entropy coordinates, Kuramoto dynamics, the mental-state
model and the orchestration layer, with theorems checking the
specification's claims. f64 values are modelled as real numbers; i32/i64
arithmetic as integers, with the i64 products inside total_capacity
reduced into signed 64-bit range where the source can wrap; u64
arithmetic as naturals reduced modulo 2^64 where the source can wrap. The Kuramoto phase step and the
order parameter are modelled with the genuine sin/exp over the reals. -/

/-- Size of the u64 integer type: u64 arithmetic wraps modulo this. -/
def U64_SIZE : Nat := 2 ^ 64

/-- Error type of TernaryAddr operations (vb-core error.rs, the variants
used by encode). -/
inductive TernaryAddrError where
  | invalidDigit (d : Nat)
  | valueExceedsCapacity (value maxValue : Nat) (depth : Nat)
deriving DecidableEq, Repr

/-- TernaryAddr: a sequence of base-3 digits (vb-core ternary_addr.rs).
The u8 digits are modelled as naturals. -/
structure TernaryAddr where
  digits : List Nat
deriving DecidableEq, Repr

/-- The digit-extraction loop of TernaryAddr::encode: depth rounds of
pushing remaining % 3 and dividing remaining by 3 (little-endian order,
reversed by encode afterwards). -/
def encodeDigitsLE (remaining : Nat) : Nat → List Nat
  | 0 => []
  | d + 1 => (remaining % 3) :: encodeDigitsLE (remaining / 3) d

/-- TernaryAddr::encode. The capacity bound 3u64.pow(depth) - 1 is computed
in u64 arithmetic, which wraps modulo 2^64 in release builds, so the bound
is modelled as 3^depth % 2^64 - 1 (3^depth is odd, so the subtraction
never wraps). -/
def TernaryAddr.encode (value : Nat) (depth : Nat) : Except TernaryAddrError TernaryAddr :=
  let max_value := 3 ^ depth % U64_SIZE - 1
  if value > max_value then
    .error (.valueExceedsCapacity value max_value depth)
  else
    .ok ⟨(encodeDigitsLE value depth).reverse⟩

/-- TernaryAddr::decode: fold acc * 3 + d over the digits in u64
arithmetic. -/
def TernaryAddr.decode (a : TernaryAddr) : Nat :=
  a.digits.foldl (fun acc d => (acc * 3 + d) % U64_SIZE) 0


/-- Spin: the two chirality values of a partition coordinate. -/
inductive Spin where
  | down
  | up
deriving DecidableEq, Repr

/-- Error type of PartitionCoord operations (vb-core error.rs, the
variants used here). -/
inductive PartitionCoordError where
  | invalidN (n : Int)
  | invalidL (l n : Int)
  | invalidM (m l : Int)
  | invalidIndex (i : Int)
deriving DecidableEq, Repr

/-- PartitionCoord: quantum-style categorical coordinate (n, l, m, s)
from vb-core partition_coord.rs. The i32 components are modelled as
integers. -/
structure PartitionCoord where
  n : Int
  l : Int
  m : Int
  s : Spin
deriving DecidableEq, Repr

/-- PartitionCoord::new with its range validation. -/
def PartitionCoord.new (n l m : Int) (s : Spin) : Except PartitionCoordError PartitionCoord :=
  if n < 1 then .error (.invalidN n)
  else if l < 0 ∨ l ≥ n then .error (.invalidL l n)
  else if m < -l ∨ m > l then .error (.invalidM m l)
  else .ok ⟨n, l, m, s⟩

/-- Signed 64-bit wrap-around: the value an i64 operation produces in
release builds, reduced into the interval from -2^63 to 2^63 - 1. -/
def wrap64 (x : Int) : Int := (x + 2 ^ 63) % 2 ^ 64 - 2 ^ 63

/-- PartitionCoord::total_capacity: n(n+1)(2n+1)/3 for n at least 1, else
0. The two i64 multiplications wrap in release builds and the i64
division truncates toward zero, so they are modelled with wrap64 and
Int.tdiv; the product n(n+1)(2n+1) overflows i64 for every n at least
1664511. -/
def total_capacity (n_max : Int) : Int :=
  if n_max < 1 then 0
  else
    let a := wrap64 (n_max * (n_max + 1))
    let b := wrap64 (2 * n_max + 1)
    Int.tdiv (wrap64 (a * b)) 3

/-- The exact mathematical value n(n+1)(2n+1)/3 that total_capacity
computes whenever no i64 overflow occurs (every n at most 1664510); used
to reason about the wrapped computation on that overflow-free range. -/
def total_capacity_ideal (n_max : Int) : Int :=
  if n_max < 1 then 0 else n_max * (n_max + 1) * (2 * n_max + 1) / 3

/-- The l_offset accumulation loop of to_linear_index: sum of 2*(2*l+1)
over l in [0, self.l). -/
def l_offset_loop : Nat → Int
  | 0 => 0
  | k + 1 => l_offset_loop k + 2 * (2 * (k : Int) + 1)

/-- The 0-or-1 index offset of a spin (down before up). -/
def Spin.s_offset : Spin → Int
  | .down => 0
  | .up => 1

/-- PartitionCoord::to_linear_index. -/
def PartitionCoord.to_linear_index (c : PartitionCoord) : Int :=
  total_capacity (c.n - 1) + l_offset_loop c.l.toNat + 2 * (c.m + c.l) + c.s.s_offset

/-- The n-searching loop of from_linear_index: increment n while
total_capacity n is at most the index. It is entered with n = 1 and keeps
n at least 1 (the conjunct 1 ≤ n mirrors that); the conjunct n < 2^31
stops where the source's i32 loop counter would overflow, making the
model a total function (beyond the overflow-free range the source loop
can run away on wrapped capacities). -/
def find_n (index : Int) (n : Int) : Int :=
  if h : 1 ≤ n ∧ n < 2 ^ 31 ∧ total_capacity n ≤ index then find_n index (n + 1) else n
termination_by (2 ^ 31 - n).toNat
decreasing_by omega

/-- The l-searching loop of from_linear_index: subtract the 2*(2l+1)
states of each l level while they fit in the remaining index; returns
(l, remaining). Entered with l = 0; the conjunct 0 ≤ l makes the measure
decrease for every argument. -/
def find_l (remaining : Int) (l : Int) : Int × Int :=
  if h : 0 ≤ l ∧ 2 * (2 * l + 1) ≤ remaining then
    find_l (remaining - 2 * (2 * l + 1)) (l + 1)
  else (l, remaining)
termination_by remaining.toNat
decreasing_by omega

/-- PartitionCoord::from_linear_index. -/
def PartitionCoord.from_linear_index (index : Int) : Except PartitionCoordError PartitionCoord :=
  if index < 0 then .error (.invalidIndex index)
  else
    let n := find_n index 1
    let lr := find_l (index - total_capacity (n - 1)) 0
    let m := lr.2 / 2 - lr.1
    let s : Spin := if lr.2 % 2 = 0 then .down else .up
    PartitionCoord.new n lr.1 m s

/-- A PartitionCoord satisfying the documented range invariants. -/
def PartitionCoord.Valid (c : PartitionCoord) : Prop :=
  1 ≤ c.n ∧ 0 ≤ c.l ∧ c.l < c.n ∧ -c.l ≤ c.m ∧ c.m ≤ c.l

instance : DecidablePred PartitionCoord.Valid := by
  intro c
  unfold PartitionCoord.Valid
  infer_instance

/-- The index order claimed by the spec: n ascending, then l ascending,
then m ascending, then spin-down before spin-up. -/
def coordLexLt (a b : PartitionCoord) : Prop :=
  a.n < b.n ∨ (a.n = b.n ∧ (a.l < b.l ∨ (a.l = b.l ∧
    (a.m < b.m ∨ (a.m = b.m ∧ a.s = Spin.down ∧ b.s = Spin.up)))))

/-- f64::clamp(lo, hi) on the real model. -/
noncomputable def clampR (x lo hi : ℝ) : ℝ := max lo (min x hi)

/-- SCoord: S-entropy coordinate (sk, st, se) from vb-core s_coord.rs,
f64 components modelled as reals. -/
structure SCoord where
  sk : ℝ
  st : ℝ
  se : ℝ

/-- SCoord::update: additive update clamped into the unit cube. -/
noncomputable def SCoord.update (s : SCoord) (delta_sk delta_st delta_se : ℝ) : SCoord :=
  ⟨clampR (s.sk + delta_sk) 0 1, clampR (s.st + delta_st) 0 1, clampR (s.se + delta_se) 0 1⟩

/-- SCoord::distance: Euclidean distance. -/
noncomputable def SCoord.distance (a b : SCoord) : ℝ :=
  Real.sqrt ((a.sk - b.sk) * (a.sk - b.sk) + (a.st - b.st) * (a.st - b.st) +
    (a.se - b.se) * (a.se - b.se))

/-- MentalState from vb-core mental_state.rs, f64 fields as reals. -/
structure MentalState where
  gamma : ℝ
  gamma_f : ℝ
  m : ℝ
  s_coord : Option SCoord
  partition : Option PartitionCoord
  timestamp : ℝ
  p_decay : ℝ
  t_decay : ℝ
  trajectory : List SCoord

/-- MentalState::consciousness: C = p_decay * t_decay * gamma * gamma_f. -/
noncomputable def MentalState.consciousness (s : MentalState) : ℝ :=
  s.p_decay * s.t_decay * s.gamma * s.gamma_f

/-- MentalState::enter_dream: force p_decay to 0. -/
def MentalState.enter_dream (s : MentalState) : MentalState :=
  { s with p_decay := 0 }

/-- MentalState::wake: restore p_decay to the given level clamped to [0,1]. -/
noncomputable def MentalState.wake (s : MentalState) (perception_level : ℝ) : MentalState :=
  { s with p_decay := clampR perception_level 0 1 }

/-- MentalState::initial. -/
def MentalState.initial (s_coord : Option SCoord) (partition : Option PartitionCoord) :
    MentalState :=
  { gamma := 0.5, gamma_f := 0.5, m := 0, s_coord := s_coord, partition := partition,
    timestamp := 0, p_decay := 1, t_decay := 1, trajectory := [] }

/-- MentalState::with_gamma. -/
noncomputable def MentalState.with_gamma (s : MentalState) (gamma : ℝ) : MentalState :=
  { s with gamma := clampR gamma 0 1 }

/-- MentalState::with_gamma_f. -/
noncomputable def MentalState.with_gamma_f (s : MentalState) (gamma_f : ℝ) : MentalState :=
  { s with gamma_f := clampR gamma_f 0 1 }

/-- MentalState::decay_perception: multiply p_decay by exp(-dt/tau_p) and
advance the timestamp by dt. -/
noncomputable def MentalState.decay_perception (s : MentalState) (tau_p dt : ℝ) : MentalState :=
  { s with p_decay := s.p_decay * Real.exp (-dt / tau_p), timestamp := s.timestamp + dt }

/-- MentalState::decay_thought: multiply t_decay by exp(-dt/tau_t) and
advance the timestamp by dt. -/
noncomputable def MentalState.decay_thought (s : MentalState) (tau_t dt : ℝ) : MentalState :=
  { s with t_decay := s.t_decay * Real.exp (-dt / tau_t), timestamp := s.timestamp + dt }

/-- MentalState::transition_to: push the previous s_coord (if any) on the
trajectory and adopt the new one. -/
def MentalState.transition_to (s : MentalState) (target : SCoord) : MentalState :=
  { s with
    trajectory := match s.s_coord with
      | some current => s.trajectory ++ [current]
      | none => s.trajectory,
    s_coord := some target }

/-- KuramotoState from vb-operators dynamics_ops.rs: oscillator phases,
natural frequencies and global coupling strength. -/
structure KuramotoState where
  phases : List ℝ
  natural_frequencies : List ℝ
  coupling_strength : ℝ

/-- f64::rem_euclid for a positive modulus: x reduced into [0, y). -/
noncomputable def remEuclidR (x y : ℝ) : ℝ := x - y * ⌊x / y⌋

/-- The pairwise coupling sum of the KURAMOTO operator:
sum over j of sin(phi_j - phi_i). -/
noncomputable def kuramotoCouplingSum (phases : List ℝ) (phi_i : ℝ) : ℝ :=
  (phases.map (fun phi_j => Real.sin (phi_j - phi_i))).sum

/-- KURAMOTO operator: one explicit Euler step
dphi_i = omega_i + (K/N) * sum_j sin(phi_j - phi_i), phases wrapped into
[0, 2*pi); frequencies and coupling strength are returned unchanged. -/
noncomputable def kuramoto (state : KuramotoState) (dt : ℝ) : KuramotoState :=
  let n := state.phases.length
  let d_phases := List.zipWith
    (fun w phi_i => w + state.coupling_strength / (n : ℝ) * kuramotoCouplingSum state.phases phi_i)
    state.natural_frequencies state.phases
  let new_phases := List.zipWith
    (fun phi dphi => remEuclidR (phi + dphi * dt) (2 * π)) state.phases d_phases
  { phases := new_phases, natural_frequencies := state.natural_frequencies,
    coupling_strength := state.coupling_strength }

/-- kuramoto_with_drug: scale the coupling by (1 - k_agg*concentration),
floored at 0, then apply the same step. -/
noncomputable def kuramoto_with_drug (state : KuramotoState)
    (drug_concentration k_agg dt : ℝ) : KuramotoState :=
  let effective_k := state.coupling_strength * (1 - k_agg * drug_concentration)
  let modified_state : KuramotoState :=
    { phases := state.phases, natural_frequencies := state.natural_frequencies,
      coupling_strength := max effective_k 0 }
  kuramoto modified_state dt

/-- PHASE_LOCK operator: the Kuramoto order parameter
(R, Psi) with R*exp(i*Psi) = (1/N) * sum_j exp(i*phi_j). -/
noncomputable def phase_lock (phases : List ℝ) : ℝ × ℝ :=
  let z : ℂ := (phases.map (fun (phi : ℝ) => Complex.exp ((phi : ℂ) * Complex.I))).sum /
    (phases.length : ℂ)
  (Complex.abs z, z.arg)

/-- COHERENCE operator: the magnitude R of PHASE_LOCK. -/
noncomputable def coherence (phases : List ℝ) : ℝ := (phase_lock phases).1

/-- ComputeResult from vb-engine poincare_computer.rs; the metadata map is
modelled as an association list. -/
structure ComputeResult where
  success : Bool
  final_state : MentalState
  iterations : Nat
  convergence_history : List ℝ
  trajectory : List SCoord
  metadata : List (String × String)

/-- PoincareComputer state from vb-engine poincare_computer.rs. -/
structure PoincareComputer where
  kuramoto_state : KuramotoState
  state_history : List MentalState
  n_partition_levels : Int
  mean_frequency : ℝ
  frequency_std : ℝ

/-- One per-step mental-state update of the engine loops: fold the current
coherence into gamma, then apply both decays (tau_p = 0.05, tau_t = 0.1). -/
noncomputable def engineStep (st : MentalState) (r dt : ℝ) : MentalState :=
  ((st.with_gamma r).decay_perception 0.05 dt).decay_thought 0.1 dt

/-- The iteration loop of PoincareComputer::compute_consciousness, by
remaining fuel: evolve the Kuramoto state, update the mental state, record
consciousness, stop once it is within 0.01 of the target (returning the
1-based iteration count), otherwise scale the coupling by 1.01 or 0.99 and
continue. Returns (kuramoto state, mental state, history, some count on
success / none on budget exhaustion). -/
noncomputable def ccLoop (target_consciousness dt : ℝ) (ks : KuramotoState)
    (st : MentalState) (conv : List ℝ) (iter : Nat) :
    Nat → KuramotoState × MentalState × List ℝ × Option Nat
  | 0 => (ks, st, conv, none)
  | fuel + 1 =>
      let ks1 := kuramoto ks dt
      let r := coherence ks1.phases
      let st1 := engineStep st r dt
      let c := st1.consciousness
      let conv1 := conv ++ [c]
      if |c - target_consciousness| < 0.01 then (ks1, st1, conv1, some (iter + 1))
      else
        let ks2 := { ks1 with coupling_strength :=
          ks1.coupling_strength * (if c < target_consciousness then 1.01 else 0.99) }
        ccLoop target_consciousness dt ks2 st1 conv1 (iter + 1) fuel

/-- PoincareComputer::compute_consciousness: returns the updated engine and
the ComputeResult (success with the step count at which consciousness came
within 0.01 of the target, or failure with reason max_iterations after the
iteration budget). -/
noncomputable def PoincareComputer.compute_consciousness (pc : PoincareComputer)
    (initial_state : MentalState) (target_consciousness : ℝ) (max_iterations : Nat)
    (dt : ℝ) : PoincareComputer × ComputeResult :=
  let trajectory : List SCoord := match initial_state.s_coord with
    | some s => [s]
    | none => []
  let out := ccLoop target_consciousness dt pc.kuramoto_state initial_state [] 0 max_iterations
  match out.2.2.2 with
  | some iters =>
      ({ pc with kuramoto_state := out.1 },
        { success := true, final_state := out.2.1, iterations := iters,
          convergence_history := out.2.2.1, trajectory := trajectory, metadata := [] })
  | none =>
      ({ pc with kuramoto_state := out.1 },
        { success := false, final_state := out.2.1, iterations := max_iterations,
          convergence_history := out.2.2.1, trajectory := trajectory,
          metadata := [("reason", "max_iterations")] })

/-- The iteration loop of PoincareComputer::run_simulation, by remaining
steps: evolve the Kuramoto state, update the mental state, advance the
timestamp by a further dt, and record the state. -/
noncomputable def runSimLoop (ks : KuramotoState) (st : MentalState) (dt : ℝ) :
    Nat → KuramotoState × List MentalState
  | 0 => (ks, [])
  | n + 1 =>
      let ks1 := kuramoto ks dt
      let r := coherence ks1.phases
      let st1 := engineStep st r dt
      let st2 := { st1 with timestamp := st1.timestamp + dt }
      let rest := runSimLoop ks1 st2 dt n
      (rest.1, st2 :: rest.2)

/-- PoincareComputer::run_simulation: (duration / dt) as usize steps (the
f64-to-usize cast floors, saturating at 0 for negative values); returns the
updated engine and the per-step state sequence, also stored as the state
history. -/
noncomputable def PoincareComputer.run_simulation (pc : PoincareComputer)
    (initial_state : MentalState) (duration dt : ℝ) :
    PoincareComputer × List MentalState :=
  let n_steps := (⌊duration / dt⌋).toNat
  let out := runSimLoop pc.kuramoto_state initial_state dt n_steps
  ({ pc with kuramoto_state := out.1, state_history := out.2 }, out.2)

/-- PoincareComputer::apply_drug_perturbation: replace the engine's
Kuramoto state by the drug-perturbed step and fold the new coherence into
the given state's gamma. -/
noncomputable def PoincareComputer.apply_drug_perturbation (pc : PoincareComputer)
    (state : MentalState) (concentration k_agg dt : ℝ) :
    PoincareComputer × MentalState :=
  let ks1 := kuramoto_with_drug pc.kuramoto_state concentration k_agg dt
  let pc1 := { pc with kuramoto_state := ks1 }
  let r := coherence pc1.kuramoto_state.phases
  (pc1, state.with_gamma r)

/-- TransitionResult from vb-engine state_manager.rs. -/
structure TransitionResult where
  success : Bool
  from_state : Option SCoord
  to_state : SCoord
  distance : ℝ
  metadata : List (String × String)

/-- StateManager from vb-engine state_manager.rs. -/
structure StateManager where
  current_state : MentalState
  history : List MentalState
  max_history : Nat

/-- StateManager::new. -/
def StateManager.new (max_history : Nat) : StateManager :=
  { current_state := MentalState.initial none none, history := [], max_history := max_history }

/-- StateManager::initialize: reset to the initial state and a one-entry
history. -/
def StateManager.initializeManager (sm : StateManager) (s_coord : Option SCoord)
    (partition : Option PartitionCoord) : StateManager :=
  let st := MentalState.initial s_coord partition
  { sm with current_state := st, history := [st] }

/-- The new state built by StateManager::transition: transition_to the
target, then apply the optional gamma and gamma_f overrides. -/
noncomputable def transitionState (st : MentalState) (target_s_coord : SCoord)
    (new_gamma new_gamma_f : Option ℝ) : MentalState :=
  let s1 := st.transition_to target_s_coord
  let s2 := match new_gamma with
    | some g => s1.with_gamma g
    | none => s1
  match new_gamma_f with
  | some gf => s2.with_gamma_f gf
  | none => s2

/-- StateManager::transition: push the new state, trim the oldest history
entry when the configured maximum is exceeded, and return the updated
manager with the TransitionResult. -/
noncomputable def StateManager.transition (sm : StateManager) (target_s_coord : SCoord)
    (new_gamma new_gamma_f : Option ℝ) : StateManager × TransitionResult :=
  let from_state := sm.current_state.s_coord
  let distance : ℝ := match from_state with
    | some s => s.distance target_s_coord
    | none => 0
  let new_state := transitionState sm.current_state target_s_coord new_gamma new_gamma_f
  let h1 := sm.history ++ [new_state]
  let h2 := if h1.length > sm.max_history then h1.drop 1 else h1
  ({ sm with current_state := new_state, history := h2 },
    { success := true, from_state := from_state, to_state := target_s_coord,
      distance := distance, metadata := [] })

/-- A sequence of StateManager::transition calls, keeping only the manager. -/
noncomputable def applyTransitions (sm : StateManager) :
    List (SCoord × Option ℝ × Option ℝ) → StateManager
  | [] => sm
  | t :: ts => applyTransitions (sm.transition t.1 t.2.1 t.2.2).1 ts

/-- The full sequence of states a transition sequence pushes, starting
from a given current state. -/
noncomputable def pushedStates (st : MentalState) :
    List (SCoord × Option ℝ × Option ℝ) → List MentalState
  | [] => []
  | t :: ts =>
      let s1 := transitionState st t.1 t.2.1 t.2.2
      s1 :: pushedStates s1 ts

/-- CompletionResult from vb-operators poincare_ops.rs. -/
structure CompletionResult where
  success : Bool
  final_state : SCoord
  iterations : Nat
  trajectory : List SCoord
  constraint_violations : List ℝ

/-- The total absolute constraint violation summed by the COMPLETE loop. -/
noncomputable def total_violation (constraints : List (SCoord → ℝ)) (s : SCoord) : ℝ :=
  (constraints.map (fun c => |c s|)).sum

/-- The summed squared violation whose numerical gradient COMPLETE
descends. -/
noncomputable def violationSq (constraints : List (SCoord → ℝ)) (s : SCoord) : ℝ :=
  (constraints.map (fun c => c s ^ 2)).sum

/-- compute_constraint_gradient from vb-operators poincare_ops.rs: forward
finite difference of the summed squared violation, one-sided (0) at the
upper boundary. -/
noncomputable def compute_constraint_gradient (state : SCoord)
    (constraints : List (SCoord → ℝ)) (epsilon : ℝ) : ℝ × ℝ × ℝ :=
  let v0 := violationSq constraints state
  let dsk := if state.sk + epsilon ≤ 1 then
    (violationSq constraints ⟨state.sk + epsilon, state.st, state.se⟩ - v0) / epsilon else 0
  let dst := if state.st + epsilon ≤ 1 then
    (violationSq constraints ⟨state.sk, state.st + epsilon, state.se⟩ - v0) / epsilon else 0
  let dse := if state.se + epsilon ≤ 1 then
    (violationSq constraints ⟨state.sk, state.st, state.se + epsilon⟩ - v0) / epsilon else 0
  (dsk, dst, dse)

/-- The iteration loop of the COMPLETE operator, by remaining fuel,
carrying the trajectory, violation history and iteration counter. -/
noncomputable def completeLoop (constraints : List (SCoord → ℝ)) (tolerance learning_rate : ℝ)
    (state : SCoord) (trajectory : List SCoord) (violations : List ℝ) (iter : Nat) :
    Nat → CompletionResult
  | 0 =>
      let final_violation := total_violation constraints state
      { success := decide (final_violation < tolerance), final_state := state,
        iterations := iter, trajectory := trajectory,
        constraint_violations := violations ++ [final_violation] }
  | fuel + 1 =>
      let tv := total_violation constraints state
      if tv < tolerance then
        { success := true, final_state := state, iterations := iter,
          trajectory := trajectory, constraint_violations := violations ++ [tv] }
      else
        let grad := compute_constraint_gradient state constraints 0.000001
        let state2 := state.update (-learning_rate * grad.1) (-learning_rate * grad.2.1)
          (-learning_rate * grad.2.2)
        completeLoop constraints tolerance learning_rate state2 (trajectory ++ [state2])
          (violations ++ [tv]) (iter + 1) fuel

/-- COMPLETE operator from vb-operators poincare_ops.rs: gradient descent
on the summed squared constraint violation until the total absolute
violation is below tolerance or the iteration budget is exhausted. -/
noncomputable def complete (partial_state : SCoord) (constraints : List (SCoord → ℝ))
    (max_iterations : Nat) (tolerance learning_rate : ℝ) : CompletionResult :=
  completeLoop constraints tolerance learning_rate partial_state [partial_state] [] 0
    max_iterations

/-- The three constraints of C2: drive each axis to 0.5. -/
noncomputable def halfConstraints : List (SCoord → ℝ) :=
  [fun s => s.sk - 0.5, fun s => s.st - 0.5, fun s => s.se - 0.5]

/-- Accumulator-free core of the COMPLETE loop (final state, steps taken,
success), used to evaluate the concrete run of C2. -/
noncomputable def completeCore (constraints : List (SCoord → ℝ)) (tolerance learning_rate : ℝ)
    (state : SCoord) : Nat → SCoord × Nat × Bool
  | 0 => (state, 0, decide (total_violation constraints state < tolerance))
  | fuel + 1 =>
      if total_violation constraints state < tolerance then (state, 0, true)
      else
        let grad := compute_constraint_gradient state constraints 0.000001
        let r := completeCore constraints tolerance learning_rate
          (state.update (-learning_rate * grad.1) (-learning_rate * grad.2.1)
            (-learning_rate * grad.2.2)) fuel
        (r.1, r.2.1 + 1, r.2.2)

theorem decode_foldl_append (xs : List Nat) (d : Nat) :
    TernaryAddr.decode ⟨xs ++ [d]⟩ = (TernaryAddr.decode ⟨xs⟩ * 3 + d) % U64_SIZE := by
  simp [TernaryAddr.decode, List.foldl_append]

theorem decode_encodeDigitsLE :
    ∀ (d v : Nat), v < 3 ^ d → 3 ^ d ≤ U64_SIZE →
      TernaryAddr.decode ⟨(encodeDigitsLE v d).reverse⟩ = v := by
  intro d
  induction d with
  | zero =>
      intro v hv _
      interval_cases v
      rfl
  | succ d ih =>
      intro v hv hle
      have hstep : 3 ^ d ≤ U64_SIZE := le_trans (Nat.pow_le_pow_right (by norm_num) (Nat.le_succ d)) hle
      have hdiv : v / 3 < 3 ^ d := by
        have : v < 3 * 3 ^ d := by rw [pow_succ] at hv; omega
        omega
      have := ih (v / 3) hdiv hstep
      simp only [encodeDigitsLE, List.reverse_cons]
      rw [decode_foldl_append, this]
      have hvlt : v < U64_SIZE := lt_of_lt_of_le hv hle
      have : v / 3 * 3 + v % 3 = v := by omega
      rw [this, Nat.mod_eq_of_lt hvlt]

/-- C8 (amended): for depth at most 40 (so that 3^depth fits in u64) and any
u64 value v, TernaryAddr::encode(v, depth) returns an error exactly when v
exceeds 3^depth - 1, and whenever it succeeds, decode of the resulting
address returns v. -/
theorem ternary_encode_decode_roundtrip :
    ∀ (d v : Nat), d ≤ 40 → v < U64_SIZE →
      ((∃ e, TernaryAddr.encode v d = .error e) ↔ 3 ^ d - 1 < v) ∧
      (∀ a, TernaryAddr.encode v d = .ok a → a.decode = v) := by
  intro d v hd _
  have hfit : 3 ^ d < U64_SIZE :=
    lt_of_le_of_lt (Nat.pow_le_pow_right (by norm_num) hd) (by norm_num [U64_SIZE])
  have hmod : 3 ^ d % U64_SIZE = 3 ^ d := Nat.mod_eq_of_lt hfit
  constructor
  · constructor
    · rintro ⟨e, he⟩
      by_contra hle
      simp only [TernaryAddr.encode, hmod] at he
      rw [if_neg (by omega)] at he
      exact Except.noConfusion he
    · intro hgt
      refine ⟨.valueExceedsCapacity v (3 ^ d % U64_SIZE - 1) d, ?_⟩
      simp only [TernaryAddr.encode]
      rw [if_pos (by omega)]
  · intro a ha
    simp only [TernaryAddr.encode, hmod] at ha
    by_cases hv : v > 3 ^ d - 1
    · rw [if_pos hv] at ha
      exact Except.noConfusion ha
    · rw [if_neg hv] at ha
      have hlt : v < 3 ^ d := by
        have : 1 ≤ 3 ^ d := Nat.one_le_pow _ _ (by norm_num)
        omega
      cases ha
      exact decode_encodeDigitsLE d v hlt (le_of_lt hfit)

/-- Witness for C8's amended theorem at depth 3, value 13: encode succeeds
(13 is at most 26) and decode returns 13. -/
theorem ternary_encode_decode_roundtrip_witness :
    ((∃ e, TernaryAddr.encode 13 3 = .error e) ↔ 3 ^ 3 - 1 < 13) ∧
    (∀ a, TernaryAddr.encode 13 3 = .ok a → a.decode = 13) :=
  ternary_encode_decode_roundtrip 3 13 (by norm_num) (by norm_num [U64_SIZE])

/-- Counterexample to C8 as stated: at depth 41 the u64 computation of
3^41 wraps, so the value 3^41 mod 2^64 (which does not exceed 3^41 - 1)
is nevertheless rejected by encode. -/
theorem ternary_encode_depth41_counterexample :
    ¬ (3 ^ 41 % U64_SIZE > 3 ^ 41 - 1) ∧
    TernaryAddr.encode (3 ^ 41 % U64_SIZE) 41 =
      .error (.valueExceedsCapacity (3 ^ 41 % U64_SIZE) (3 ^ 41 % U64_SIZE - 1) 41) := by
  constructor
  · decide
  · simp only [TernaryAddr.encode]
    rw [if_pos (by decide)]

/-- C10: the capacity bound of TernaryAddr::encode is 3^depth computed in
u64: 3^depth fits in a u64 exactly for depth at most 40 and overflows for
every depth at least 41, and within the depth-at-most-40 range encode is
total with the exact contract (Ok below the bound, capacity error above). -/
theorem ternary_encode_overflow_threshold :
    (∀ d : Nat, d ≤ 40 → 3 ^ d < U64_SIZE) ∧
    (∀ d : Nat, 41 ≤ d → U64_SIZE ≤ 3 ^ d) ∧
    (∀ d v : Nat, d ≤ 40 →
      (v ≤ 3 ^ d - 1 → TernaryAddr.encode v d = .ok ⟨(encodeDigitsLE v d).reverse⟩) ∧
      (3 ^ d - 1 < v → TernaryAddr.encode v d =
        .error (.valueExceedsCapacity v (3 ^ d - 1) d))) := by
  refine ⟨?_, ?_, ?_⟩
  · intro d hd
    exact lt_of_le_of_lt (Nat.pow_le_pow_right (by norm_num) hd) (by norm_num [U64_SIZE])
  · intro d hd
    exact le_trans (by norm_num [U64_SIZE]) (Nat.pow_le_pow_right (by norm_num) hd)
  · intro d v hd
    have hfit : 3 ^ d < U64_SIZE :=
      lt_of_le_of_lt (Nat.pow_le_pow_right (by norm_num) hd) (by norm_num [U64_SIZE])
    have hmod : 3 ^ d % U64_SIZE = 3 ^ d := Nat.mod_eq_of_lt hfit
    constructor
    · intro hv
      simp only [TernaryAddr.encode, hmod]
      rw [if_neg (by omega)]
    · intro hv
      simp only [TernaryAddr.encode, hmod]
      rw [if_pos (by omega)]
theorem three_dvd_cap (j : Int) : ∃ k, j * (j + 1) * (2 * j + 1) = 3 * k := by
  obtain ⟨i, hi | hi | hi⟩ : ∃ i, j = 3 * i ∨ j = 3 * i + 1 ∨ j = 3 * i + 2 :=
    ⟨j / 3, by omega⟩
  · exact ⟨i * (j + 1) * (2 * j + 1), by rw [hi]; ring⟩
  · exact ⟨j * (j + 1) * (2 * i + 1), by rw [hi]; ring⟩
  · exact ⟨j * (i + 1) * (2 * j + 1), by rw [hi]; ring⟩

theorem wrap64_eq_self {x : Int} (h1 : -(2 ^ 63) ≤ x) (h2 : x < 2 ^ 63) :
    wrap64 x = x := by
  unfold wrap64
  omega

theorem tdiv_three_of_dvd {x : Int} (h : (3 : Int) ∣ x) : Int.tdiv x 3 = x / 3 := by
  obtain ⟨k, hk⟩ := h
  subst hk
  rw [Int.mul_ediv_cancel_left _ (by norm_num), Int.mul_tdiv_cancel_left _ (by norm_num)]

theorem total_capacity_ideal_of_lt_one {n : Int} (h : n < 1) : total_capacity_ideal n = 0 := by
  simp [total_capacity_ideal, if_pos h]

theorem total_capacity_ideal_succ (n : Int) (h : 1 ≤ n) :
    total_capacity_ideal n = total_capacity_ideal (n - 1) + 2 * n ^ 2 := by
  rcases eq_or_lt_of_le h with h1 | h2
  · rw [← h1]
    norm_num [total_capacity_ideal]
  · obtain ⟨a, ha⟩ := three_dvd_cap n
    obtain ⟨b, hb⟩ := three_dvd_cap (n - 1)
    unfold total_capacity_ideal
    rw [if_neg (by omega), if_neg (by omega), ha, hb,
      Int.mul_ediv_cancel_left _ (by norm_num), Int.mul_ediv_cancel_left _ (by norm_num)]
    have h3 : 3 * a = 3 * b + 6 * n ^ 2 := by linear_combination hb - ha
    linarith

theorem total_capacity_ideal_nonneg (n : Int) : 0 ≤ total_capacity_ideal n := by
  rcases lt_or_le n 1 with h | h
  · rw [total_capacity_ideal_of_lt_one h]
  · refine Int.le_induction (P := fun b => 0 ≤ total_capacity_ideal b) ?_ ?_ n h
    · norm_num [total_capacity_ideal]
    · intro k hk ih
      have step := total_capacity_ideal_succ (k + 1) (by omega)
      rw [show k + 1 - 1 = k from by ring] at step
      nlinarith [sq_nonneg (k + 1), ih]

theorem total_capacity_ideal_mono {a b : Int} (h : a ≤ b) :
    total_capacity_ideal a ≤ total_capacity_ideal b := by
  rcases lt_or_le b 1 with hb | hb
  · rw [total_capacity_ideal_of_lt_one hb, total_capacity_ideal_of_lt_one (by omega)]
  · have main : ∀ b : Int, 1 ≤ b → a ≤ b →
        total_capacity_ideal a ≤ total_capacity_ideal b := by
      refine Int.le_induction
        (P := fun b => a ≤ b → total_capacity_ideal a ≤ total_capacity_ideal b) ?_ ?_
      · intro hab
        rcases lt_or_le a 1 with ha | ha
        · rw [total_capacity_ideal_of_lt_one ha]
          exact total_capacity_ideal_nonneg 1
        · have he : a = 1 := by omega
          rw [he]
      · intro k hk ih hab
        have step : total_capacity_ideal k ≤ total_capacity_ideal (k + 1) := by
          have hs := total_capacity_ideal_succ (k + 1) (by omega)
          rw [show k + 1 - 1 = k from by ring] at hs
          nlinarith [sq_nonneg (k + 1)]
        rcases lt_or_le k a with hlt | hle
        · have he : a = k + 1 := by omega
          rw [he]
        · exact le_trans (ih hle) step
    exact main b hb h

theorem total_capacity_eq_ideal (n : Int) (hn : n ≤ 1664510) :
    total_capacity n = total_capacity_ideal n := by
  rcases lt_or_le n 1 with h | h
  · simp [total_capacity, total_capacity_ideal, if_pos h]
  · unfold total_capacity total_capacity_ideal
    rw [if_neg (by omega), if_neg (by omega)]
    have ha1 : n * (n + 1) ≤ 1664510 * 1664511 :=
      mul_le_mul hn (by omega) (by omega) (by omega)
    have ha0 : 0 ≤ n * (n + 1) := by positivity
    have hwa : wrap64 (n * (n + 1)) = n * (n + 1) :=
      wrap64_eq_self (by omega) (by omega)
    have hwb : wrap64 (2 * n + 1) = 2 * n + 1 :=
      wrap64_eq_self (by omega) (by omega)
    simp only [hwa, hwb]
    have hd1 : n * (n + 1) * (2 * n + 1) ≤ 1664510 * 1664511 * (2 * 1664510 + 1) :=
      mul_le_mul ha1 (by omega) (by omega) (by omega)
    have hd0 : 0 ≤ n * (n + 1) * (2 * n + 1) := by positivity
    have hwd : wrap64 (n * (n + 1) * (2 * n + 1)) = n * (n + 1) * (2 * n + 1) :=
      wrap64_eq_self (by omega) (by omega)
    obtain ⟨k, hk⟩ := three_dvd_cap n
    rw [hwd, tdiv_three_of_dvd ⟨k, hk⟩]

theorem l_offset_loop_eq (k : Nat) : l_offset_loop k = 2 * (k : Int) ^ 2 := by
  induction k with
  | zero => simp [l_offset_loop]
  | succ k ih =>
      rw [l_offset_loop, ih]
      push_cast
      ring

theorem find_n_spec (index : Int) :
    ∀ n0 : Int, 1 ≤ n0 → n0 ≤ 1664510 →
      total_capacity_ideal (n0 - 1) ≤ index →
      index < total_capacity_ideal 1664510 →
      1 ≤ find_n index n0 ∧ find_n index n0 ≤ 1664510 ∧
        total_capacity_ideal (find_n index n0 - 1) ≤ index ∧
        index < total_capacity_ideal (find_n index n0) := by
  intro n0
  induction n0 using find_n.induct index with
  | case1 n hcond ih =>
      intro h1 hb hle hhi
      rw [find_n, dif_pos hcond]
      have hTn : total_capacity_ideal n ≤ index := by
        rw [← total_capacity_eq_ideal n hb]
        exact hcond.2.2
      have hlt : n < 1664510 := by
        by_contra hcontra
        have he : n = 1664510 := by omega
        rw [he] at hTn
        omega
      exact ih (by omega) (by omega)
        (by rw [show n + 1 - 1 = n from by ring]; exact hTn) hhi
  | case2 n hcond =>
      intro h1 hb hle hhi
      rw [find_n, dif_neg hcond]
      have hTn : ¬ total_capacity n ≤ index := by
        intro hcontra
        exact hcond ⟨h1, by omega, hcontra⟩
      rw [total_capacity_eq_ideal n hb] at hTn
      exact ⟨h1, hb, hle, by omega⟩

theorem find_n_unique {index a b : Int} (ha1 : 1 ≤ a) (hb1 : 1 ≤ b)
    (ha : total_capacity_ideal (a - 1) ≤ index) (ha2 : index < total_capacity_ideal a)
    (hb : total_capacity_ideal (b - 1) ≤ index) (hb2 : index < total_capacity_ideal b) :
    a = b := by
  by_contra hne
  rcases lt_or_gt_of_ne hne with hlt | hgt
  · have h1 : total_capacity_ideal a ≤ total_capacity_ideal (b - 1) :=
      total_capacity_ideal_mono (by omega)
    omega
  · have h1 : total_capacity_ideal b ≤ total_capacity_ideal (a - 1) :=
      total_capacity_ideal_mono (by omega)
    omega

theorem find_l_spec :
    ∀ (rem l0 : Int), 0 ≤ l0 → 0 ≤ rem →
      l0 ≤ (find_l rem l0).1 ∧ 0 ≤ (find_l rem l0).2 ∧
        (find_l rem l0).2 < 2 * (2 * (find_l rem l0).1 + 1) ∧
        (find_l rem l0).2 + 2 * (find_l rem l0).1 ^ 2 = rem + 2 * l0 ^ 2 := by
  intro rem l0
  induction rem, l0 using find_l.induct with
  | case1 rem l hcond ih =>
      intro hl0 hrem
      rw [find_l, dif_pos hcond]
      obtain ⟨h1, h2, h3, h4⟩ := ih (by omega) (by omega)
      refine ⟨by omega, h2, h3, ?_⟩
      rw [h4]
      ring
  | case2 rem l hcond =>
      intro hl0 hrem
      rw [find_l, dif_neg hcond]
      have h5 : ¬ 2 * (2 * l + 1) ≤ rem := by
        intro hc
        exact hcond ⟨hl0, hc⟩
      exact ⟨le_refl l, hrem, by omega, by ring⟩

theorem find_l_unique {a ra b rb : Int} (ha0 : 0 ≤ a) (hb0 : 0 ≤ b)
    (hra : 0 ≤ ra) (hra2 : ra < 2 * (2 * a + 1))
    (hrb : 0 ≤ rb) (hrb2 : rb < 2 * (2 * b + 1))
    (heq : ra + 2 * a ^ 2 = rb + 2 * b ^ 2) : a = b := by
  by_contra hne
  rcases lt_or_gt_of_ne hne with hlt | hgt
  · nlinarith
  · nlinarith

theorem s_offset_cases (s : Spin) :
    s.s_offset = 0 ∧ s = Spin.down ∨ s.s_offset = 1 ∧ s = Spin.up := by
  cases s
  · exact Or.inl ⟨rfl, rfl⟩
  · exact Or.inr ⟨rfl, rfl⟩

theorem s_offset_bounds (s : Spin) : 0 ≤ s.s_offset ∧ s.s_offset ≤ 1 := by
  cases s <;> simp [Spin.s_offset]

theorem to_linear_index_eq (c : PartitionCoord) (hl : 0 ≤ c.l) (hn : c.n - 1 ≤ 1664510) :
    c.to_linear_index =
      total_capacity_ideal (c.n - 1) + 2 * c.l ^ 2 + 2 * (c.m + c.l) + c.s.s_offset := by
  simp only [PartitionCoord.to_linear_index, l_offset_loop_eq, Int.toNat_of_nonneg hl,
    total_capacity_eq_ideal (c.n - 1) hn]

set_option maxHeartbeats 1000000 in
/-- C1 (amended): the linear-index bijection of PartitionCoord on the
overflow-free range n at most 1664510 (for n beyond it the i64 product
inside total_capacity wraps, see the counterexample). (1) Every valid
coordinate with n at most 1664510 round-trips:
from_linear_index (to_linear_index c) = Ok c. (2) For n_max at most
1664510, every index i with 0 ≤ i < total_capacity n_max decodes to a
valid coordinate that encodes back to i. (3) On that range
to_linear_index is strictly monotone for the order n ascending, then l
ascending, then m from -l to l, then spin-down before spin-up. -/
theorem partition_linear_index_bijection :
    (∀ c : PartitionCoord, c.Valid → c.n ≤ 1664510 →
      PartitionCoord.from_linear_index c.to_linear_index = .ok c) ∧
    (∀ n_max i : Int, n_max ≤ 1664510 → 0 ≤ i → i < total_capacity n_max →
      ∃ c : PartitionCoord, PartitionCoord.from_linear_index i = .ok c ∧
        c.Valid ∧ c.to_linear_index = i) ∧
    (∀ a b : PartitionCoord, a.Valid → b.Valid → a.n ≤ 1664510 → b.n ≤ 1664510 →
      coordLexLt a b → a.to_linear_index < b.to_linear_index) := by
  refine ⟨?_, ?_, ?_⟩
  · -- round trip from a valid coordinate below the overflow threshold
    rintro ⟨n, l, m, s⟩ hc hnb
    obtain ⟨h1, h2, h3, h4, h5⟩ := hc
    simp only at h1 h2 h3 h4 h5 hnb
    set i := PartitionCoord.to_linear_index ⟨n, l, m, s⟩ with hi
    have hieq : i = total_capacity_ideal (n - 1) + 2 * l ^ 2 +
        (2 * (m + l) + Spin.s_offset s) := by
      rw [hi, to_linear_index_eq _ h2 (show n - 1 ≤ 1664510 from by omega)]
      ring
    obtain ⟨hso0, hso1⟩ := s_offset_bounds s
    have hsucc := total_capacity_ideal_succ n h1
    have htc0 : total_capacity_ideal (1 - 1) = 0 := by norm_num [total_capacity_ideal]
    have hnn : 0 ≤ total_capacity_ideal (n - 1) := total_capacity_ideal_nonneg _
    have hprod : 0 ≤ (n - l - 1) * (n + l + 1) := mul_nonneg (by omega) (by omega)
    have hinner1 : 0 ≤ 2 * l ^ 2 + (2 * (m + l) + Spin.s_offset s) := by
      nlinarith [sq_nonneg l]
    have hinner2 : 2 * l ^ 2 + (2 * (m + l) + Spin.s_offset s) < 2 * n ^ 2 := by
      nlinarith [hprod]
    have hi0 : 0 ≤ i := by omega
    have hmax : total_capacity_ideal n ≤ total_capacity_ideal 1664510 :=
      total_capacity_ideal_mono hnb
    have hbr := find_n_spec i 1 (by norm_num) (by norm_num) (by omega) (by omega)
    have hn : find_n i 1 = n :=
      find_n_unique hbr.1 h1 hbr.2.2.1 hbr.2.2.2 (by omega) (by omega)
    have hbridge : total_capacity (n - 1) = total_capacity_ideal (n - 1) :=
      total_capacity_eq_ideal (n - 1) (by omega)
    have hrem : i - total_capacity (n - 1) = 2 * l ^ 2 + (2 * (m + l) + Spin.s_offset s) := by
      omega
    have hfl := find_l_spec (i - total_capacity (n - 1)) 0 (by norm_num) (by omega)
    have hl2 : (find_l (i - total_capacity (n - 1)) 0).1 = l := by
      have hrb0 : (0 : Int) ≤ 2 * (m + l) + Spin.s_offset s := by omega
      have hrb2 : 2 * (m + l) + Spin.s_offset s < 2 * (2 * l + 1) := by omega
      refine find_l_unique hfl.1 h2 hfl.2.1 hfl.2.2.1 hrb0 hrb2 ?_
      rw [hfl.2.2.2, hrem]
      ring
    have hr2 : (find_l (i - total_capacity (n - 1)) 0).2 =
        2 * (m + l) + Spin.s_offset s := by
      have h6 := hfl.2.2.2
      rw [hl2] at h6
      nlinarith [h6]
    have hscases := s_offset_cases s
    simp only [PartitionCoord.from_linear_index, hn, hl2, hr2]
    rw [if_neg (by omega)]
    have hm : (2 * (m + l) + Spin.s_offset s) / 2 - l = m := by
      rcases hscases with ⟨he, _⟩ | ⟨he, _⟩ <;> rw [he] <;> omega
    rw [hm]
    rcases hscases with ⟨he, hsd⟩ | ⟨he, hsu⟩
    · rw [if_pos (by rw [he]; omega), hsd]
      simp only [PartitionCoord.new]
      rw [if_neg (by omega), if_neg (by omega), if_neg (by omega)]
    · rw [if_neg (by rw [he]; omega), hsu]
      simp only [PartitionCoord.new]
      rw [if_neg (by omega), if_neg (by omega), if_neg (by omega)]
  · -- every in-range index decodes and encodes back
    intro n_max i hnmax hi0 hilt
    rw [total_capacity_eq_ideal n_max hnmax] at hilt
    have hmax : total_capacity_ideal n_max ≤ total_capacity_ideal 1664510 :=
      total_capacity_ideal_mono hnmax
    have htc0 : total_capacity_ideal (1 - 1) = 0 := by norm_num [total_capacity_ideal]
    have hbr := find_n_spec i 1 (by norm_num) (by norm_num) (by omega) (by omega)
    set n := find_n i 1 with hn
    obtain ⟨hn1, hnB, hnlo, hnhi⟩ := hbr
    have hsucc := total_capacity_ideal_succ n hn1
    have hbridge : total_capacity (n - 1) = total_capacity_ideal (n - 1) :=
      total_capacity_eq_ideal (n - 1) (by omega)
    have hremlo : 0 ≤ i - total_capacity (n - 1) := by omega
    have hremhi : i - total_capacity (n - 1) < 2 * n ^ 2 := by omega
    have hfl := find_l_spec (i - total_capacity (n - 1)) 0 (by norm_num) hremlo
    set l := (find_l (i - total_capacity (n - 1)) 0).1 with hldef
    set r := (find_l (i - total_capacity (n - 1)) 0).2 with hrdef
    obtain ⟨hl0, hr0, hrlt, hinv⟩ := hfl
    have hln : l < n := by nlinarith
    have hm1 : -l ≤ r / 2 - l := by omega
    have hm2 : r / 2 - l ≤ l := by omega
    refine ⟨⟨n, l, r / 2 - l, if r % 2 = 0 then Spin.down else Spin.up⟩, ?_, ?_, ?_⟩
    · simp only [PartitionCoord.from_linear_index]
      rw [if_neg (by omega)]
      simp only [← hn, ← hldef, ← hrdef, PartitionCoord.new]
      rw [if_neg (by omega), if_neg (by omega), if_neg (by omega)]
    · exact ⟨hn1, hl0, hln, hm1, hm2⟩
    · rw [to_linear_index_eq _ hl0 (show n - 1 ≤ 1664510 from by omega)]
      simp only
      have hso : (if r % 2 = 0 then Spin.down else Spin.up).s_offset = r % 2 := by
        rcases Int.emod_two_eq_zero_or_one r with he | he <;> rw [he] <;> simp [Spin.s_offset]
      rw [hso]
      have h7 : 2 * (r / 2 - l + l) + r % 2 = r := by omega
      rw [add_assoc, add_assoc]
      have h8 : 2 * (r / 2 - l + l) + r % 2 = r := h7
      omega
  · -- strict monotonicity for the lexicographic order
    intro a b ha hb hna hnb hlex
    obtain ⟨ha1, ha2, ha3, ha4, ha5⟩ := ha
    obtain ⟨hb1, hb2, hb3, hb4, hb5⟩ := hb
    obtain ⟨ha6, ha7⟩ := s_offset_bounds a.s
    obtain ⟨hb6, hb7⟩ := s_offset_bounds b.s
    rw [to_linear_index_eq a ha2 (by omega), to_linear_index_eq b hb2 (by omega)]
    rcases hlex with hn | ⟨hn, hl | ⟨hl, hm | ⟨hm, hsd, hsu⟩⟩⟩
    · have h1 : total_capacity_ideal a.n ≤ total_capacity_ideal (b.n - 1) :=
        total_capacity_ideal_mono (by omega)
      have h2 := total_capacity_ideal_succ a.n ha1
      have h3 : 0 ≤ 2 * b.l ^ 2 + 2 * (b.m + b.l) + Spin.s_offset b.s := by
        nlinarith [sq_nonneg b.l]
      have hpa : 0 ≤ (a.n - a.l - 1) * (a.n + a.l + 1) := mul_nonneg (by omega) (by omega)
      nlinarith [sq_nonneg b.l]
    · rw [hn]
      have hp : 0 ≤ (b.l - a.l - 1) * (b.l + a.l + 1) := mul_nonneg (by omega) (by omega)
      nlinarith [hp]
    · rw [hn, hl]
      omega
    · rw [hn, hl, hm, hsd, hsu]
      simp [Spin.s_offset]

/-- Counterexample to C1 as stated: the coordinate (n, l, m, s) =
(1664512, 0, 0, down) is valid, but the i64 product inside
total_capacity(1664511) wraps to a negative value, so to_linear_index is
negative and from_linear_index rejects it instead of returning Ok of the
coordinate. -/
theorem partition_index_overflow_counterexample :
    (PartitionCoord.mk 1664512 0 0 Spin.down).Valid ∧
    (PartitionCoord.mk 1664512 0 0 Spin.down).to_linear_index < 0 ∧
    PartitionCoord.from_linear_index
        (PartitionCoord.mk 1664512 0 0 Spin.down).to_linear_index ≠
      .ok (PartitionCoord.mk 1664512 0 0 Spin.down) := by
  have herr : PartitionCoord.from_linear_index
      (PartitionCoord.mk 1664512 0 0 Spin.down).to_linear_index =
      .error (.invalidIndex (PartitionCoord.mk 1664512 0 0 Spin.down).to_linear_index) := by
    simp only [PartitionCoord.from_linear_index]
    rw [if_pos (by decide)]
  refine ⟨by decide, by decide, ?_⟩
  rw [herr]
  intro hcontra
  exact Except.noConfusion hcontra

/-- C6 (amended): enter_dream always drives consciousness to 0 (below
0.01); wake sets p_decay to clamp(L, 0, 1), and when additionally the
state's t_decay is positive (with gamma, gamma_f positive as claimed),
waking with any L > 0 gives strictly higher consciousness than the dream
state. -/
theorem dream_wake_consciousness :
    ∀ (s : MentalState) (L : ℝ),
      s.enter_dream.consciousness < 0.01 ∧
      (s.wake L).p_decay = clampR L 0 1 ∧
      (0 < s.gamma → 0 < s.gamma_f → 0 < s.t_decay → 0 < L →
        s.enter_dream.consciousness < (s.wake L).consciousness) := by
  intro s L
  have hdream : s.enter_dream.consciousness = 0 := by
    simp [MentalState.enter_dream, MentalState.consciousness]
  refine ⟨by rw [hdream]; norm_num, rfl, ?_⟩
  intro hg hgf ht hL
  rw [hdream]
  have hp : 0 < clampR L 0 1 := by
    have h1 : 0 < min L 1 := lt_min hL one_pos
    exact lt_of_lt_of_le h1 (le_max_right 0 (min L 1))
  have : (s.wake L).consciousness = clampR L 0 1 * s.t_decay * s.gamma * s.gamma_f := by
    simp [MentalState.wake, MentalState.consciousness]
  rw [this]
  positivity

/-- Counterexample to C6 as stated: with t_decay = 0 (gamma and gamma_f
positive as the claim requires), waking at level 0.5 gives consciousness
0, not strictly greater than the dream state's 0. -/
theorem dream_wake_tdecay_counterexample :
    0 < (MentalState.mk 1 1 0 none none 0 1 0 []).gamma ∧
    0 < (MentalState.mk 1 1 0 none none 0 1 0 []).gamma_f ∧
    (0 : ℝ) < 0.5 ∧
    ¬ ((MentalState.mk 1 1 0 none none 0 1 0 []).enter_dream.consciousness <
        ((MentalState.mk 1 1 0 none none 0 1 0 []).wake 0.5).consciousness) := by
  refine ⟨by norm_num, by norm_num, by norm_num, ?_⟩
  simp [MentalState.enter_dream, MentalState.wake, MentalState.consciousness]

/-- C9: kuramoto_with_drug returns the drug-scaled coupling strength
max(0, K*(1 - k_agg*concentration)) and leaves the natural frequencies
unchanged; apply_drug_perturbation installs exactly that perturbed
Kuramoto state in the engine, so the engine's coupling strength is
replaced by the scaled value. -/
theorem drug_perturbation_scales_coupling :
    ∀ (state : KuramotoState) (concentration k_agg dt : ℝ)
      (pc : PoincareComputer) (st : MentalState),
      (kuramoto_with_drug state concentration k_agg dt).coupling_strength =
        max 0 (state.coupling_strength * (1 - k_agg * concentration)) ∧
      (kuramoto_with_drug state concentration k_agg dt).natural_frequencies =
        state.natural_frequencies ∧
      (pc.apply_drug_perturbation st concentration k_agg dt).1.kuramoto_state =
        kuramoto_with_drug pc.kuramoto_state concentration k_agg dt ∧
      (pc.apply_drug_perturbation st concentration k_agg dt).1.kuramoto_state.coupling_strength =
        max 0 (pc.kuramoto_state.coupling_strength * (1 - k_agg * concentration)) := by
  intro state concentration k_agg dt pc st
  have h1 : ∀ ks : KuramotoState, ∀ d : ℝ,
      (kuramoto_with_drug ks concentration k_agg d).coupling_strength =
        max 0 (ks.coupling_strength * (1 - k_agg * concentration)) := by
    intro ks d
    simp only [kuramoto_with_drug, kuramoto]
    exact max_comm _ 0
  refine ⟨h1 state dt, rfl, rfl, ?_⟩
  simp only [PoincareComputer.apply_drug_perturbation]
  exact h1 pc.kuramoto_state dt

theorem abs_list_sum_le (l : List ℂ) : Complex.abs l.sum ≤ (l.map Complex.abs).sum := by
  induction l with
  | nil => simp
  | cons a t ih =>
      simp only [List.sum_cons, List.map_cons]
      exact le_trans (Complex.abs.add_le a t.sum) (by linarith)

theorem sum_map_one (l : List ℝ) : (l.map (fun _ => (1 : ℝ))).sum = l.length := by
  induction l with
  | nil => simp
  | cons a t ih => simp [ih, add_comm]

theorem sum_map_const_complex (l : List ℝ) (c : ℂ) :
    (l.map (fun _ => c)).sum = (l.length : ℂ) * c := by
  induction l with
  | nil => simp
  | cons a t ih =>
      simp only [List.map_cons, List.sum_cons, ih, List.length_cons]
      push_cast
      ring

theorem phase_lock_abs_sum (phases : List ℝ) :
    (phase_lock phases).1 =
      Complex.abs ((phases.map (fun (phi : ℝ) => Complex.exp ((phi : ℂ) * Complex.I))).sum) /
        phases.length := by
  simp only [phase_lock, map_div₀]
  congr 1
  simp [Complex.abs_natCast]

/-- C4 (amended): for every nonempty phase array the order parameter
magnitude R of phase_lock lies in [0, 1], and when all phases are equal,
R equals 1 within 1e-10 (it is exactly 1). -/
theorem phase_lock_order_parameter :
    ∀ phases : List ℝ, phases ≠ [] →
      0 ≤ (phase_lock phases).1 ∧ (phase_lock phases).1 ≤ 1 ∧
      ((∀ x ∈ phases, ∀ y ∈ phases, x = y) → |(phase_lock phases).1 - 1| ≤ 1e-10) := by
  intro phases hne
  have hlen : 0 < (phases.length : ℝ) := by
    have h0 : 0 < phases.length := List.length_pos.mpr hne
    exact_mod_cast h0
  refine ⟨?_, ?_, ?_⟩
  · rw [phase_lock_abs_sum]
    positivity
  · rw [phase_lock_abs_sum, div_le_one hlen]
    refine le_trans (abs_list_sum_le _) ?_
    rw [List.map_map]
    have heq : (phases.map (Complex.abs ∘ fun (phi : ℝ) => Complex.exp ((phi : ℂ) * Complex.I))) =
        phases.map (fun _ => (1 : ℝ)) := by
      refine List.map_congr_left ?_
      intro x hx
      simp only [Function.comp]
      exact Complex.abs_exp_ofReal_mul_I x
    rw [heq, sum_map_one]
  · intro hall
    obtain ⟨p, t, rfl⟩ : ∃ p t, phases = p :: t := by
      cases phases with
      | nil => exact absurd rfl hne
      | cons p t => exact ⟨p, t, rfl⟩
    have hmem : p ∈ p :: t := List.mem_cons_self p t
    have hconst : (p :: t).map (fun (phi : ℝ) => Complex.exp ((phi : ℂ) * Complex.I)) =
        (p :: t).map (fun _ => Complex.exp ((p : ℂ) * Complex.I)) := by
      refine List.map_congr_left ?_
      intro x hx
      rw [hall x hx p hmem]
    rw [phase_lock_abs_sum, hconst, sum_map_const_complex]
    rw [map_mul, Complex.abs_natCast, Complex.abs_exp_ofReal_mul_I]
    rw [mul_one, div_self (ne_of_gt hlen)]
    norm_num

/-- Counterexample to C4 as stated (for every array): on the empty array
all phases are (vacuously) equal, yet the order parameter magnitude is 0,
not within 1e-10 of 1 (the Rust code divides by N = 0 there). -/
theorem phase_lock_empty_counterexample :
    (∀ x ∈ ([] : List ℝ), ∀ y ∈ ([] : List ℝ), x = y) ∧
    ¬ (|(phase_lock ([] : List ℝ)).1 - 1| ≤ 1e-10) := by
  constructor
  · intro x hx
    exact absurd hx (List.not_mem_nil x)
  · rw [phase_lock_abs_sum]
    norm_num

/-- Witness for C4's amended theorem at the one-element array [0]. -/
theorem phase_lock_order_parameter_witness :
    0 ≤ (phase_lock [(0 : ℝ)]).1 ∧ (phase_lock [(0 : ℝ)]).1 ≤ 1 ∧
    ((∀ x ∈ [(0 : ℝ)], ∀ y ∈ [(0 : ℝ)], x = y) → |(phase_lock [(0 : ℝ)]).1 - 1| ≤ 1e-10) :=
  phase_lock_order_parameter [(0 : ℝ)] (by simp)

theorem engineStep_timestamp (st : MentalState) (r dt : ℝ) :
    (engineStep st r dt).timestamp = st.timestamp + dt + dt := by
  simp [engineStep, MentalState.with_gamma, MentalState.decay_perception,
    MentalState.decay_thought]

theorem runSimLoop_length :
    ∀ (n : Nat) (ks : KuramotoState) (st : MentalState) (dt : ℝ),
      (runSimLoop ks st dt n).2.length = n := by
  intro n
  induction n with
  | zero => intro ks st dt; rfl
  | succ n ih =>
      intro ks st dt
      simp only [runSimLoop, List.length_cons, ih]

theorem runSimLoop_timestamp :
    ∀ (n : Nat) (ks : KuramotoState) (st : MentalState) (dt : ℝ) (k : Nat)
      (h : k < (runSimLoop ks st dt n).2.length),
      ((runSimLoop ks st dt n).2.get ⟨k, h⟩).timestamp =
        st.timestamp + 3 * ((k : ℝ) + 1) * dt := by
  intro n
  induction n with
  | zero =>
      intro ks st dt k h
      rw [runSimLoop_length] at h
      omega
  | succ n ih =>
      intro ks st dt k h
      match k with
      | 0 =>
          simp only [runSimLoop, List.get]
          rw [engineStep_timestamp]
          push_cast
          ring
      | k + 1 =>
          have hlt : k < (runSimLoop (kuramoto ks dt)
              { engineStep st (coherence (kuramoto ks dt).phases) dt with
                timestamp := (engineStep st (coherence (kuramoto ks dt).phases) dt).timestamp + dt }
              dt n).2.length := by
            rw [runSimLoop_length]
            rw [runSimLoop_length] at h
            omega
          have := ih (kuramoto ks dt)
            { engineStep st (coherence (kuramoto ks dt).phases) dt with
              timestamp := (engineStep st (coherence (kuramoto ks dt).phases) dt).timestamp + dt }
            dt k hlt
          simp only [runSimLoop, List.get] at this ⊢
          rw [this]
          simp only [engineStep_timestamp]
          push_cast
          ring

/-- C3 (amended): run_simulation returns exactly floor(duration/dt)
states, and the k-th returned state (0-based k) has timestamp equal to the
initial state's timestamp plus 3*(k+1)*dt: each recorded step advances the
timestamp by 3*dt, because decay_perception and decay_thought each also
advance it by dt before the loop's own dt. -/
theorem run_simulation_step_count_and_timestamps :
    ∀ (pc : PoincareComputer) (initial_state : MentalState) (duration dt : ℝ),
      0 ≤ duration → 0 < dt →
      ((pc.run_simulation initial_state duration dt).2.length = (⌊duration / dt⌋).toNat ∧
        ∀ (k : Nat) (h : k < (pc.run_simulation initial_state duration dt).2.length),
          ((pc.run_simulation initial_state duration dt).2.get ⟨k, h⟩).timestamp =
            initial_state.timestamp + 3 * ((k : ℝ) + 1) * dt) := by
  intro pc initial_state duration dt h0 h1
  constructor
  · simp only [PoincareComputer.run_simulation]
    exact runSimLoop_length _ _ _ _
  · intro k h
    simp only [PoincareComputer.run_simulation] at h ⊢
    exact runSimLoop_timestamp _ _ _ _ k h

/-- Witness for C3's amended theorem at a concrete engine, initial state,
duration 1 and dt 1. -/
theorem run_simulation_step_count_witness :
    ((PoincareComputer.mk ⟨[], [], 0⟩ [] 5 10 1).run_simulation
        (MentalState.initial none none) 1 1).2.length = (⌊(1 : ℝ) / 1⌋).toNat ∧
    ∀ (k : Nat) (h : k < ((PoincareComputer.mk ⟨[], [], 0⟩ [] 5 10 1).run_simulation
        (MentalState.initial none none) 1 1).2.length),
      (((PoincareComputer.mk ⟨[], [], 0⟩ [] 5 10 1).run_simulation
          (MentalState.initial none none) 1 1).2.get ⟨k, h⟩).timestamp =
        (MentalState.initial none none).timestamp + 3 * ((k : ℝ) + 1) * 1 :=
  run_simulation_step_count_and_timestamps (PoincareComputer.mk ⟨[], [], 0⟩ [] 5 10 1)
    (MentalState.initial none none) 1 1 (by norm_num) (by norm_num)

/-- Counterexample to C3 as stated: with duration 1 and dt 1 one state is
recorded, and its timestamp is 3 (three dt advances per step), not the
claimed initial timestamp plus 1*dt = 1. -/
theorem run_simulation_timestamp_counterexample :
    ((PoincareComputer.mk ⟨[], [], 0⟩ [] 5 10 1).run_simulation
        (MentalState.initial none none) 1 1).2.length = 1 ∧
    (((PoincareComputer.mk ⟨[], [], 0⟩ [] 5 10 1).run_simulation
        (MentalState.initial none none) 1 1).2.getD 0 (MentalState.initial none none)).timestamp ≠
      (MentalState.initial none none).timestamp + 1 * 1 := by
  have hn : (⌊(1 : ℝ) / 1⌋).toNat = 1 := by norm_num
  constructor
  · simp only [PoincareComputer.run_simulation, hn]
    exact runSimLoop_length _ _ _ _
  · simp only [PoincareComputer.run_simulation, hn, runSimLoop, List.getD, MentalState.initial]
    rw [engineStep_timestamp]
    simp [MentalState.initial]

theorem ccLoop_acc :
    ∀ (fuel : Nat) (tgt dt : ℝ) (ks : KuramotoState) (st : MentalState)
      (conv : List ℝ) (iter : Nat),
      ccLoop tgt dt ks st conv iter fuel =
        ((ccLoop tgt dt ks st [] 0 fuel).1,
         (ccLoop tgt dt ks st [] 0 fuel).2.1,
         conv ++ (ccLoop tgt dt ks st [] 0 fuel).2.2.1,
         (ccLoop tgt dt ks st [] 0 fuel).2.2.2.map (fun x => x + iter)) := by
  intro fuel
  induction fuel with
  | zero =>
      intro tgt dt ks st conv iter
      simp [ccLoop]
  | succ fuel ih =>
      intro tgt dt ks st conv iter
      simp only [ccLoop]
      by_cases hc : |(engineStep st (coherence (kuramoto ks dt).phases) dt).consciousness - tgt| < 0.01
      · rw [if_pos hc, if_pos hc]
        simp [Nat.add_comm]
      · rw [if_neg hc, if_neg hc]
        simp only [List.nil_append, Nat.zero_add]
        rw [ih _ _ _ _ (conv ++ [(engineStep st (coherence (kuramoto ks dt).phases) dt).consciousness]) (iter + 1)]
        rw [ih _ _ _ _ [(engineStep st (coherence (kuramoto ks dt).phases) dt).consciousness] 1]
        simp only [List.append_assoc, List.singleton_append, Option.map_map, Prod.mk.injEq]
        refine ⟨trivial, trivial, trivial, ?_⟩
        cases (ccLoop tgt dt _ _ [] 0 fuel).2.2.2 with
        | none => rfl
        | some j =>
            show some _ = some _
            congr 1
            show j + (iter + 1) = j + 1 + iter
            omega

theorem isSome_map_nat (f : Nat → Nat) (o : Option Nat) : (o.map f).isSome = o.isSome := by
  cases o <;> rfl

theorem ccLoop_success_iff :
    ∀ (fuel : Nat) (tgt dt : ℝ) (ks : KuramotoState) (st : MentalState),
      (ccLoop tgt dt ks st [] 0 fuel).2.2.2.isSome = true ↔
        ∃ c ∈ (ccLoop tgt dt ks st [] 0 fuel).2.2.1, |c - tgt| < 0.01 := by
  intro fuel
  induction fuel with
  | zero =>
      intro tgt dt ks st
      simp [ccLoop]
  | succ fuel ih =>
      intro tgt dt ks st
      simp only [ccLoop]
      by_cases hc : |(engineStep st (coherence (kuramoto ks dt).phases) dt).consciousness - tgt| < 0.01
      · rw [if_pos hc]
        simp only [Option.isSome_some, List.nil_append, List.mem_singleton, true_iff]
        exact ⟨_, rfl, hc⟩
      · rw [if_neg hc]
        simp only [List.nil_append, Nat.zero_add]
        rw [ccLoop_acc fuel]
        simp only [isSome_map_nat, List.mem_cons, List.singleton_append]
        rw [ih]
        constructor
        · rintro ⟨c, hcmem, hclt⟩
          exact ⟨c, Or.inr hcmem, hclt⟩
        · rintro ⟨c, hor, hclt⟩
          rcases hor with heq | hmem
          · rw [heq] at hclt
            exact absurd hclt hc
          · exact ⟨c, hmem, hclt⟩

theorem ccLoop_iterations_eq_length :
    ∀ (fuel : Nat) (tgt dt : ℝ) (ks : KuramotoState) (st : MentalState) (i : Nat),
      (ccLoop tgt dt ks st [] 0 fuel).2.2.2 = some i →
        i = (ccLoop tgt dt ks st [] 0 fuel).2.2.1.length := by
  intro fuel
  induction fuel with
  | zero =>
      intro tgt dt ks st i h
      simp [ccLoop] at h
  | succ fuel ih =>
      intro tgt dt ks st i h
      simp only [ccLoop] at h ⊢
      by_cases hc : |(engineStep st (coherence (kuramoto ks dt).phases) dt).consciousness - tgt| < 0.01
      · rw [if_pos hc] at h ⊢
        simp only [Option.some.injEq] at h
        simp [← h]
      · rw [if_neg hc] at h ⊢
        simp only [List.nil_append, Nat.zero_add] at h ⊢
        rw [ccLoop_acc fuel] at h ⊢
        rw [Option.map_eq_some'] at h
        obtain ⟨j, hj, hij⟩ := h
        have := ih _ _ _ _ j hj
        simp only [List.singleton_append, List.length_cons]
        omega

/-- C7: compute_consciousness succeeds exactly when some iteration's
consciousness comes within 0.01 of the target, in which case the reported
iteration count equals the number of steps taken (one history entry per
step); otherwise it fails after max_iterations iterations with metadata
reason = max_iterations. On every non-terminating iteration the coupling
strength (which the kuramoto step itself preserves) is multiplied by 1.01
when consciousness is below target and by 0.99 otherwise. -/
theorem compute_consciousness_contract :
    (∀ (pc : PoincareComputer) (initial_state : MentalState)
        (target_consciousness : ℝ) (max_iterations : Nat) (dt : ℝ),
      ((pc.compute_consciousness initial_state target_consciousness max_iterations dt).2.success
          = true ↔
        ∃ c ∈ (pc.compute_consciousness initial_state target_consciousness max_iterations
            dt).2.convergence_history, |c - target_consciousness| < 0.01) ∧
      ((pc.compute_consciousness initial_state target_consciousness max_iterations dt).2.success
          = true →
        (pc.compute_consciousness initial_state target_consciousness max_iterations
            dt).2.iterations =
          (pc.compute_consciousness initial_state target_consciousness max_iterations
            dt).2.convergence_history.length) ∧
      ((pc.compute_consciousness initial_state target_consciousness max_iterations dt).2.success
          = false →
        (pc.compute_consciousness initial_state target_consciousness max_iterations
            dt).2.iterations = max_iterations ∧
        (pc.compute_consciousness initial_state target_consciousness max_iterations
            dt).2.metadata = [("reason", "max_iterations")])) ∧
    (∀ (target_consciousness dt : ℝ) (ks : KuramotoState) (st : MentalState)
        (conv : List ℝ) (iter fuel : Nat),
      (kuramoto ks dt).coupling_strength = ks.coupling_strength ∧
      (¬ |(engineStep st (coherence (kuramoto ks dt).phases) dt).consciousness
            - target_consciousness| < 0.01 →
        ccLoop target_consciousness dt ks st conv iter (fuel + 1) =
          ccLoop target_consciousness dt
            { kuramoto ks dt with coupling_strength := (kuramoto ks dt).coupling_strength *
                (if (engineStep st (coherence (kuramoto ks dt).phases) dt).consciousness
                    < target_consciousness then 1.01 else 0.99) }
            (engineStep st (coherence (kuramoto ks dt).phases) dt)
            (conv ++ [(engineStep st (coherence (kuramoto ks dt).phases) dt).consciousness])
            (iter + 1) fuel)) := by
  constructor
  · intro pc initial_state target_consciousness max_iterations dt
    rcases hout : (ccLoop target_consciousness dt pc.kuramoto_state initial_state [] 0
        max_iterations).2.2.2 with _ | i
    · have hiff := ccLoop_success_iff max_iterations target_consciousness dt
        pc.kuramoto_state initial_state
      rw [hout] at hiff
      simp only [Option.isSome_none, Bool.false_eq_true, false_iff] at hiff
      simp only [PoincareComputer.compute_consciousness, hout]
      refine ⟨?_, ?_, ?_⟩
      · simp only [Bool.false_eq_true, false_iff]
        exact hiff
      · intro hcontra
        exact absurd hcontra (by simp)
      · intro _
        exact ⟨trivial, trivial⟩
    · have hiff := ccLoop_success_iff max_iterations target_consciousness dt
        pc.kuramoto_state initial_state
      have hlen := ccLoop_iterations_eq_length max_iterations target_consciousness dt
        pc.kuramoto_state initial_state i hout
      rw [hout] at hiff
      simp only [Option.isSome_some, true_iff] at hiff
      simp only [PoincareComputer.compute_consciousness, hout]
      refine ⟨?_, ?_, ?_⟩
      · simp only [true_iff]
        exact hiff
      · intro _
        exact hlen
      · intro hcontra
        exact absurd hcontra (by simp)
  · intro target_consciousness dt ks st conv iter fuel
    refine ⟨rfl, ?_⟩
    intro hc
    simp only [ccLoop]
    rw [if_neg hc]

theorem transition_manager_eq (c : MentalState) (H : List MentalState) (max : Nat)
    (t : SCoord) (g gf : Option ℝ) :
    ((StateManager.mk c H max).transition t g gf).1 =
      StateManager.mk (transitionState c t g gf)
        (if (H ++ [transitionState c t g gf]).length > max
          then (H ++ [transitionState c t g gf]).drop 1
          else H ++ [transitionState c t g gf]) max := by
  simp only [StateManager.transition]

theorem drop_to_capacity (S : List MentalState) (s3 : MentalState) (max : Nat)
    (hmax : 1 ≤ max) :
    (if (S.drop (S.length - max) ++ [s3]).length > max
        then (S.drop (S.length - max) ++ [s3]).drop 1
        else S.drop (S.length - max) ++ [s3]) =
      (S ++ [s3]).drop ((S ++ [s3]).length - max) := by
  have hlendrop : (S.drop (S.length - max)).length = S.length - (S.length - max) :=
    List.length_drop _ _
  rcases lt_or_le S.length max with hlt | hle
  · have h1 : S.length - max = 0 := by omega
    rw [if_neg (by simp [h1]; omega)]
    have h2 : (S ++ [s3]).length - max = 0 := by simp; omega
    rw [h1, h2]
    simp
  · rw [if_pos (by simp [hlendrop]; omega)]
    rw [List.drop_append_of_le_length (by omega)]
    rw [List.drop_drop, List.drop_append_of_le_length (by simp; omega)]
    have h3 : (S ++ [s3]).length - max = S.length + 1 - max := by simp
    rw [h3, show S.length - max + 1 = S.length + 1 - max from by omega]

theorem applyTransitions_history :
    ∀ (ts : List (SCoord × Option ℝ × Option ℝ)) (c : MentalState)
      (S : List MentalState) (max : Nat), 1 ≤ max →
      (applyTransitions (StateManager.mk c (S.drop (S.length - max)) max) ts).history =
        (S ++ pushedStates c ts).drop ((S ++ pushedStates c ts).length - max) := by
  intro ts
  induction ts with
  | nil =>
      intro c S max hmax
      simp [applyTransitions, pushedStates]
  | cons t ts ih =>
      intro c S max hmax
      simp only [applyTransitions, pushedStates]
      rw [transition_manager_eq, drop_to_capacity S (transitionState c t.1 t.2.1 t.2.2) max hmax]
      have hS : S ++ transitionState c t.1 t.2.1 t.2.2 :: pushedStates
          (transitionState c t.1 t.2.1 t.2.2) ts =
          (S ++ [transitionState c t.1 t.2.1 t.2.2]) ++ pushedStates
            (transitionState c t.1 t.2.1 t.2.2) ts := by
        simp
      rw [hS]
      exact ih (transitionState c t.1 t.2.1 t.2.2) (S ++ [transitionState c t.1 t.2.1 t.2.2])
        max hmax

/-- C5 (amended): for a StateManager with configured maximum history
length at least 1, after initialize and any sequence of transitions the
history is exactly the suffix of the full snapshot sequence (the initial
snapshot followed by each transition's pushed state) of length at most
max_history: the oldest entries, the initial snapshot first, are dropped
on overflow, so the history length never exceeds max_history. -/
theorem state_manager_history_bound :
    ∀ (max_history : Nat) (s : Option SCoord) (p : Option PartitionCoord)
      (ts : List (SCoord × Option ℝ × Option ℝ)),
      1 ≤ max_history →
      (applyTransitions ((StateManager.new max_history).initializeManager s p) ts).history =
        (MentalState.initial s p :: pushedStates (MentalState.initial s p) ts).drop
          ((MentalState.initial s p :: pushedStates (MentalState.initial s p) ts).length
            - max_history) ∧
      (applyTransitions ((StateManager.new max_history).initializeManager s p) ts).history.length
        ≤ max_history := by
  intro max_history s p ts hmax
  have hinit : (StateManager.new max_history).initializeManager s p =
      StateManager.mk (MentalState.initial s p)
        (([MentalState.initial s p] : List MentalState).drop
          (([MentalState.initial s p] : List MentalState).length - max_history)) max_history := by
    simp only [StateManager.new, StateManager.initializeManager, List.length_singleton]
    have h0 : 1 - max_history = 0 := by omega
    rw [h0, List.drop_zero]
  have hmain := applyTransitions_history ts (MentalState.initial s p)
    [MentalState.initial s p] max_history hmax
  rw [hinit, hmain]
  have hcons : ([MentalState.initial s p] : List MentalState) ++
      pushedStates (MentalState.initial s p) ts =
      MentalState.initial s p :: pushedStates (MentalState.initial s p) ts := by
    simp
  rw [hcons]
  refine ⟨rfl, ?_⟩
  rw [List.length_drop]
  omega

/-- Witness for C5's amended theorem: max_history 2, two transitions. -/
theorem state_manager_history_bound_witness :
    (applyTransitions ((StateManager.new 2).initializeManager none none)
        [(⟨0, 0, 0⟩, none, none), (⟨1, 0, 0⟩, none, none)]).history =
      (MentalState.initial none none :: pushedStates (MentalState.initial none none)
          [(⟨0, 0, 0⟩, none, none), (⟨1, 0, 0⟩, none, none)]).drop
        ((MentalState.initial none none :: pushedStates (MentalState.initial none none)
            [(⟨0, 0, 0⟩, none, none), (⟨1, 0, 0⟩, none, none)]).length - 2) ∧
    (applyTransitions ((StateManager.new 2).initializeManager none none)
        [(⟨0, 0, 0⟩, none, none), (⟨1, 0, 0⟩, none, none)]).history.length ≤ 2 :=
  state_manager_history_bound 2 none none
    [(⟨0, 0, 0⟩, none, none), (⟨1, 0, 0⟩, none, none)] (by norm_num)

/-- Counterexample to C5 as stated: with configured maximum history length
0, after initialize and one transition the history holds one entry, so its
length exceeds max_history. -/
theorem state_manager_zero_capacity_counterexample :
    (applyTransitions ((StateManager.new 0).initializeManager none none)
        [(⟨0, 0, 0⟩, none, none)]).history.length = 1 ∧
    ¬ ((applyTransitions ((StateManager.new 0).initializeManager none none)
        [(⟨0, 0, 0⟩, none, none)]).history.length ≤
          (applyTransitions ((StateManager.new 0).initializeManager none none)
            [(⟨0, 0, 0⟩, none, none)]).max_history) := by
  have h1 : (applyTransitions ((StateManager.new 0).initializeManager none none)
      [(⟨0, 0, 0⟩, none, none)]).history.length = 1 := by
    simp [applyTransitions, StateManager.new, StateManager.initializeManager,
      transition_manager_eq]
  have h2 : (applyTransitions ((StateManager.new 0).initializeManager none none)
      [(⟨0, 0, 0⟩, none, none)]).max_history = 0 := by
    simp [applyTransitions, StateManager.new, StateManager.initializeManager,
      transition_manager_eq]
  rw [h1, h2]
  omega

theorem tv_half (s : SCoord) :
    total_violation halfConstraints s =
      |s.sk - 0.5| + (|s.st - 0.5| + (|s.se - 0.5| + 0)) := by
  simp [total_violation, halfConstraints]

theorem completeLoop_core :
    ∀ (fuel : Nat) (constraints : List (SCoord → ℝ)) (tol lr : ℝ) (s : SCoord)
      (traj : List SCoord) (viol : List ℝ) (iter : Nat),
      (completeLoop constraints tol lr s traj viol iter fuel).success =
        (completeCore constraints tol lr s fuel).2.2 ∧
      (completeLoop constraints tol lr s traj viol iter fuel).final_state =
        (completeCore constraints tol lr s fuel).1 := by
  intro fuel
  induction fuel with
  | zero =>
      intro constraints tol lr s traj viol iter
      exact ⟨rfl, rfl⟩
  | succ fuel ih =>
      intro constraints tol lr s traj viol iter
      simp only [completeLoop, completeCore]
      by_cases hc : total_violation constraints s < tol
      · rw [if_pos hc, if_pos hc]
        exact ⟨rfl, rfl⟩
      · rw [if_neg hc, if_neg hc]
        exact ih _ _ _ _ _ _ _

theorem vsq_half (s : SCoord) :
    violationSq halfConstraints s =
      (s.sk - 0.5) ^ 2 + ((s.st - 0.5) ^ 2 + ((s.se - 0.5) ^ 2 + 0)) := by
  simp [violationSq, halfConstraints]

theorem completeCoreStep22 :
    completeCore halfConstraints (1/100) (1/10)
      ⟨2370109675586487228791/4768371582031250000000, 2370109675586487228791/4768371582031250000000, 2370109675586487228791/4768371582031250000000⟩ 978 =
      (⟨2370109675586487228791/4768371582031250000000, 2370109675586487228791/4768371582031250000000, 2370109675586487228791/4768371582031250000000⟩, 0, true) := by
  rw [show (978 : Nat) = 977 + 1 from rfl, completeCore]
  rw [if_pos (by rw [tv_half]; norm_num [abs_of_nonneg])]

theorem completeCoreStep21 :
    completeCore halfConstraints (1/100) (1/10)
      ⟨473318248555130107979/953674316406250000000, 473318248555130107979/953674316406250000000, 473318248555130107979/953674316406250000000⟩ 979 =
      (⟨2370109675586487228791/4768371582031250000000, 2370109675586487228791/4768371582031250000000, 2370109675586487228791/4768371582031250000000⟩, 1, true) := by
  rw [show (979 : Nat) = 978 + 1 from rfl, completeCore]
  rw [if_neg (by rw [tv_half]; norm_num [abs_of_nonneg])]
  norm_num [compute_constraint_gradient, vsq_half, SCoord.update,
    clampR, max_def, min_def, completeCoreStep22]

theorem completeCoreStep20 :
    completeCore halfConstraints (1/100) (1/10)
      ⟨94487728070484187151/190734863281250000000, 94487728070484187151/190734863281250000000, 94487728070484187151/190734863281250000000⟩ 980 =
      (⟨2370109675586487228791/4768371582031250000000, 2370109675586487228791/4768371582031250000000, 2370109675586487228791/4768371582031250000000⟩, 2, true) := by
  rw [show (980 : Nat) = 979 + 1 from rfl, completeCore]
  rw [if_neg (by rw [tv_half]; norm_num [abs_of_nonneg])]
  norm_num [compute_constraint_gradient, vsq_half, SCoord.update,
    clampR, max_def, min_def, completeCoreStep21]

theorem completeCoreStep19 :
    completeCore halfConstraints (1/100) (1/10)
      ⟨18853565203961378819/38146972656250000000, 18853565203961378819/38146972656250000000, 18853565203961378819/38146972656250000000⟩ 981 =
      (⟨2370109675586487228791/4768371582031250000000, 2370109675586487228791/4768371582031250000000, 2370109675586487228791/4768371582031250000000⟩, 3, true) := by
  rw [show (981 : Nat) = 980 + 1 from rfl, completeCore]
  rw [if_neg (by rw [tv_half]; norm_num [abs_of_nonneg])]
  norm_num [compute_constraint_gradient, vsq_half, SCoord.update,
    clampR, max_def, min_def, completeCoreStep20]

theorem completeCoreStep18 :
    completeCore halfConstraints (1/100) (1/10)
      ⟨3759717938258411111/7629394531250000000, 3759717938258411111/7629394531250000000, 3759717938258411111/7629394531250000000⟩ 982 =
      (⟨2370109675586487228791/4768371582031250000000, 2370109675586487228791/4768371582031250000000, 2370109675586487228791/4768371582031250000000⟩, 4, true) := by
  rw [show (982 : Nat) = 981 + 1 from rfl, completeCore]
  rw [if_neg (by rw [tv_half]; norm_num [abs_of_nonneg])]
  norm_num [compute_constraint_gradient, vsq_half, SCoord.update,
    clampR, max_def, min_def, completeCoreStep19]

theorem completeCoreStep17 :
    completeCore halfConstraints (1/100) (1/10)
      ⟨749194812018216059/1525878906250000000, 749194812018216059/1525878906250000000, 749194812018216059/1525878906250000000⟩ 983 =
      (⟨2370109675586487228791/4768371582031250000000, 2370109675586487228791/4768371582031250000000, 2370109675586487228791/4768371582031250000000⟩, 5, true) := by
  rw [show (983 : Nat) = 982 + 1 from rfl, completeCore]
  rw [if_neg (by rw [tv_half]; norm_num [abs_of_nonneg])]
  norm_num [compute_constraint_gradient, vsq_half, SCoord.update,
    clampR, max_def, min_def, completeCoreStep18]

theorem completeCoreStep16 :
    completeCore halfConstraints (1/100) (1/10)
      ⟨149151768495276671/305175781250000000, 149151768495276671/305175781250000000, 149151768495276671/305175781250000000⟩ 984 =
      (⟨2370109675586487228791/4768371582031250000000, 2370109675586487228791/4768371582031250000000, 2370109675586487228791/4768371582031250000000⟩, 6, true) := by
  rw [show (984 : Nat) = 983 + 1 from rfl, completeCore]
  rw [if_neg (by rw [tv_half]; norm_num [abs_of_nonneg])]
  norm_num [compute_constraint_gradient, vsq_half, SCoord.update,
    clampR, max_def, min_def, completeCoreStep17]

theorem completeCoreStep15 :
    completeCore halfConstraints (1/100) (1/10)
      ⟨29658555221963699/61035156250000000, 29658555221963699/61035156250000000, 29658555221963699/61035156250000000⟩ 985 =
      (⟨2370109675586487228791/4768371582031250000000, 2370109675586487228791/4768371582031250000000, 2370109675586487228791/4768371582031250000000⟩, 7, true) := by
  rw [show (985 : Nat) = 984 + 1 from rfl, completeCore]
  rw [if_neg (by rw [tv_half]; norm_num [abs_of_nonneg])]
  norm_num [compute_constraint_gradient, vsq_half, SCoord.update,
    clampR, max_def, min_def, completeCoreStep16]

theorem completeCoreStep14 :
    completeCore halfConstraints (1/100) (1/10)
      ⟨5888761425119831/12207031250000000, 5888761425119831/12207031250000000, 5888761425119831/12207031250000000⟩ 986 =
      (⟨2370109675586487228791/4768371582031250000000, 2370109675586487228791/4768371582031250000000, 2370109675586487228791/4768371582031250000000⟩, 8, true) := by
  rw [show (986 : Nat) = 985 + 1 from rfl, completeCore]
  rw [if_neg (by rw [tv_half]; norm_num [abs_of_nonneg])]
  norm_num [compute_constraint_gradient, vsq_half, SCoord.update,
    clampR, max_def, min_def, completeCoreStep15]

theorem completeCoreStep13 :
    completeCore halfConstraints (1/100) (1/10)
      ⟨1167014880205739/2441406250000000, 1167014880205739/2441406250000000, 1167014880205739/2441406250000000⟩ 987 =
      (⟨2370109675586487228791/4768371582031250000000, 2370109675586487228791/4768371582031250000000, 2370109675586487228791/4768371582031250000000⟩, 9, true) := by
  rw [show (987 : Nat) = 986 + 1 from rfl, completeCore]
  rw [if_neg (by rw [tv_half]; norm_num [abs_of_nonneg])]
  norm_num [compute_constraint_gradient, vsq_half, SCoord.update,
    clampR, max_def, min_def, completeCoreStep14]

theorem completeCoreStep12 :
    completeCore halfConstraints (1/100) (1/10)
      ⟨230718624836591/488281250000000, 230718624836591/488281250000000, 230718624836591/488281250000000⟩ 988 =
      (⟨2370109675586487228791/4768371582031250000000, 2370109675586487228791/4768371582031250000000, 2370109675586487228791/4768371582031250000000⟩, 10, true) := by
  rw [show (988 : Nat) = 987 + 1 from rfl, completeCore]
  rw [if_neg (by rw [tv_half]; norm_num [abs_of_nonneg])]
  norm_num [compute_constraint_gradient, vsq_half, SCoord.update,
    clampR, max_def, min_def, completeCoreStep13]

theorem completeCoreStep11 :
    completeCore halfConstraints (1/100) (1/10)
      ⟨45472637166179/97656250000000, 45472637166179/97656250000000, 45472637166179/97656250000000⟩ 989 =
      (⟨2370109675586487228791/4768371582031250000000, 2370109675586487228791/4768371582031250000000, 2370109675586487228791/4768371582031250000000⟩, 11, true) := by
  rw [show (989 : Nat) = 988 + 1 from rfl, completeCore]
  rw [if_neg (by rw [tv_half]; norm_num [abs_of_nonneg])]
  norm_num [compute_constraint_gradient, vsq_half, SCoord.update,
    clampR, max_def, min_def, completeCoreStep12]

theorem completeCoreStep10 :
    completeCore halfConstraints (1/100) (1/10)
      ⟨8926755482951/19531250000000, 8926755482951/19531250000000, 8926755482951/19531250000000⟩ 990 =
      (⟨2370109675586487228791/4768371582031250000000, 2370109675586487228791/4768371582031250000000, 2370109675586487228791/4768371582031250000000⟩, 12, true) := by
  rw [show (990 : Nat) = 989 + 1 from rfl, completeCore]
  rw [if_neg (by rw [tv_half]; norm_num [abs_of_nonneg])]
  norm_num [compute_constraint_gradient, vsq_half, SCoord.update,
    clampR, max_def, min_def, completeCoreStep11]

theorem completeCoreStep9 :
    completeCore halfConstraints (1/100) (1/10)
      ⟨1743408109019/3906250000000, 1743408109019/3906250000000, 1743408109019/3906250000000⟩ 991 =
      (⟨2370109675586487228791/4768371582031250000000, 2370109675586487228791/4768371582031250000000, 2370109675586487228791/4768371582031250000000⟩, 13, true) := by
  rw [show (991 : Nat) = 990 + 1 from rfl, completeCore]
  rw [if_neg (by rw [tv_half]; norm_num [abs_of_nonneg])]
  norm_num [compute_constraint_gradient, vsq_half, SCoord.update,
    clampR, max_def, min_def, completeCoreStep10]

theorem completeCoreStep8 :
    completeCore halfConstraints (1/100) (1/10)
      ⟨338195874911/781250000000, 338195874911/781250000000, 338195874911/781250000000⟩ 992 =
      (⟨2370109675586487228791/4768371582031250000000, 2370109675586487228791/4768371582031250000000, 2370109675586487228791/4768371582031250000000⟩, 14, true) := by
  rw [show (992 : Nat) = 991 + 1 from rfl, completeCore]
  rw [if_neg (by rw [tv_half]; norm_num [abs_of_nonneg])]
  norm_num [compute_constraint_gradient, vsq_half, SCoord.update,
    clampR, max_def, min_def, completeCoreStep9]

theorem completeCoreStep7 :
    completeCore halfConstraints (1/100) (1/10)
      ⟨65017738259/156250000000, 65017738259/156250000000, 65017738259/156250000000⟩ 993 =
      (⟨2370109675586487228791/4768371582031250000000, 2370109675586487228791/4768371582031250000000, 2370109675586487228791/4768371582031250000000⟩, 15, true) := by
  rw [show (993 : Nat) = 992 + 1 from rfl, completeCore]
  rw [if_neg (by rw [tv_half]; norm_num [abs_of_nonneg])]
  norm_num [compute_constraint_gradient, vsq_half, SCoord.update,
    clampR, max_def, min_def, completeCoreStep8]

theorem completeCoreStep6 :
    completeCore halfConstraints (1/100) (1/10)
      ⟨12348188471/31250000000, 12348188471/31250000000, 12348188471/31250000000⟩ 994 =
      (⟨2370109675586487228791/4768371582031250000000, 2370109675586487228791/4768371582031250000000, 2370109675586487228791/4768371582031250000000⟩, 16, true) := by
  rw [show (994 : Nat) = 993 + 1 from rfl, completeCore]
  rw [if_neg (by rw [tv_half]; norm_num [abs_of_nonneg])]
  norm_num [compute_constraint_gradient, vsq_half, SCoord.update,
    clampR, max_def, min_def, completeCoreStep7]

theorem completeCoreStep5 :
    completeCore halfConstraints (1/100) (1/10)
      ⟨2305797899/6250000000, 2305797899/6250000000, 2305797899/6250000000⟩ 995 =
      (⟨2370109675586487228791/4768371582031250000000, 2370109675586487228791/4768371582031250000000, 2370109675586487228791/4768371582031250000000⟩, 17, true) := by
  rw [show (995 : Nat) = 994 + 1 from rfl, completeCore]
  rw [if_neg (by rw [tv_half]; norm_num [abs_of_nonneg])]
  norm_num [compute_constraint_gradient, vsq_half, SCoord.update,
    clampR, max_def, min_def, completeCoreStep6]

theorem completeCoreStep4 :
    completeCore halfConstraints (1/100) (1/10)
      ⟨420199631/1250000000, 420199631/1250000000, 420199631/1250000000⟩ 996 =
      (⟨2370109675586487228791/4768371582031250000000, 2370109675586487228791/4768371582031250000000, 2370109675586487228791/4768371582031250000000⟩, 18, true) := by
  rw [show (996 : Nat) = 995 + 1 from rfl, completeCore]
  rw [if_neg (by rw [tv_half]; norm_num [abs_of_nonneg])]
  norm_num [compute_constraint_gradient, vsq_half, SCoord.update,
    clampR, max_def, min_def, completeCoreStep5]

theorem completeCoreStep3 :
    completeCore halfConstraints (1/100) (1/10)
      ⟨73799939/250000000, 73799939/250000000, 73799939/250000000⟩ 997 =
      (⟨2370109675586487228791/4768371582031250000000, 2370109675586487228791/4768371582031250000000, 2370109675586487228791/4768371582031250000000⟩, 19, true) := by
  rw [show (997 : Nat) = 996 + 1 from rfl, completeCore]
  rw [if_neg (by rw [tv_half]; norm_num [abs_of_nonneg])]
  norm_num [compute_constraint_gradient, vsq_half, SCoord.update,
    clampR, max_def, min_def, completeCoreStep4]

theorem completeCoreStep2 :
    completeCore halfConstraints (1/100) (1/10)
      ⟨12199991/50000000, 12199991/50000000, 12199991/50000000⟩ 998 =
      (⟨2370109675586487228791/4768371582031250000000, 2370109675586487228791/4768371582031250000000, 2370109675586487228791/4768371582031250000000⟩, 20, true) := by
  rw [show (998 : Nat) = 997 + 1 from rfl, completeCore]
  rw [if_neg (by rw [tv_half]; norm_num [abs_of_nonneg])]
  norm_num [compute_constraint_gradient, vsq_half, SCoord.update,
    clampR, max_def, min_def, completeCoreStep3]

theorem completeCoreStep1 :
    completeCore halfConstraints (1/100) (1/10)
      ⟨1799999/10000000, 1799999/10000000, 1799999/10000000⟩ 999 =
      (⟨2370109675586487228791/4768371582031250000000, 2370109675586487228791/4768371582031250000000, 2370109675586487228791/4768371582031250000000⟩, 21, true) := by
  rw [show (999 : Nat) = 998 + 1 from rfl, completeCore]
  rw [if_neg (by rw [tv_half]; norm_num [abs_of_nonneg])]
  norm_num [compute_constraint_gradient, vsq_half, SCoord.update,
    clampR, max_def, min_def, completeCoreStep2]

theorem completeCoreStep0 :
    completeCore halfConstraints (1/100) (1/10)
      ⟨1/10, 1/10, 1/10⟩ 1000 =
      (⟨2370109675586487228791/4768371582031250000000, 2370109675586487228791/4768371582031250000000, 2370109675586487228791/4768371582031250000000⟩, 22, true) := by
  rw [show (1000 : Nat) = 999 + 1 from rfl, completeCore]
  rw [if_neg (by rw [tv_half]; norm_num [abs_of_nonneg])]
  norm_num [compute_constraint_gradient, vsq_half, SCoord.update,
    clampR, max_def, min_def, completeCoreStep1]

/-- C2: the COMPLETE operator, given the three constraints sk-0.5, st-0.5,
se-0.5, starting state (0.1, 0.1, 0.1), max_iterations 1000, tolerance
0.01 and learning rate 0.1, returns success with total absolute violation
below 0.01, and its final state lies within 0.05 of 0.5 on each axis. -/
theorem complete_converges_to_half :
    (complete ⟨0.1, 0.1, 0.1⟩ halfConstraints 1000 0.01 0.1).success = true ∧
    total_violation halfConstraints
      (complete ⟨0.1, 0.1, 0.1⟩ halfConstraints 1000 0.01 0.1).final_state < 0.01 ∧
    |(complete ⟨0.1, 0.1, 0.1⟩ halfConstraints 1000 0.01 0.1).final_state.sk - 0.5| ≤ 0.05 ∧
    |(complete ⟨0.1, 0.1, 0.1⟩ halfConstraints 1000 0.01 0.1).final_state.st - 0.5| ≤ 0.05 ∧
    |(complete ⟨0.1, 0.1, 0.1⟩ halfConstraints 1000 0.01 0.1).final_state.se - 0.5| ≤ 0.05 := by
  have hcore : completeCore halfConstraints 0.01 0.1 ⟨0.1, 0.1, 0.1⟩ 1000 =
      (⟨2370109675586487228791/4768371582031250000000,
        2370109675586487228791/4768371582031250000000,
        2370109675586487228791/4768371582031250000000⟩, 22, true) := by
    rw [show (0.01 : ℝ) = 1/100 from by norm_num, show (0.1 : ℝ) = 1/10 from by norm_num]
    exact completeCoreStep0
  have hb := completeLoop_core 1000 halfConstraints 0.01 0.1 ⟨0.1, 0.1, 0.1⟩
    [⟨0.1, 0.1, 0.1⟩] [] 0
  have hsucc : (complete ⟨0.1, 0.1, 0.1⟩ halfConstraints 1000 0.01 0.1).success = true := by
    simp only [complete]
    rw [hb.1, hcore]
  have hfin : (complete ⟨0.1, 0.1, 0.1⟩ halfConstraints 1000 0.01 0.1).final_state =
      ⟨2370109675586487228791/4768371582031250000000,
        2370109675586487228791/4768371582031250000000,
        2370109675586487228791/4768371582031250000000⟩ := by
    simp only [complete]
    rw [hb.2, hcore]
  refine ⟨hsucc, ?_, ?_, ?_, ?_⟩
  · rw [hfin, tv_half]
    norm_num [abs_of_nonneg]
  · rw [hfin]
    norm_num [abs_of_nonneg]
  · rw [hfin]
    norm_num [abs_of_nonneg]
  · rw [hfin]
    norm_num [abs_of_nonneg]
